import Mathlib

/-!
Verification of the chat-room hub (`src/chat_room/room.go`).

The Go file implements a single-room publish/subscribe hub: a `Room` owns a
set of registered clients, a bounded message history, and a control loop
(`serve`) that linearizes register/unregister/broadcast/stop events.  We give
a shallow embedding of that state machine: clients are identified by natural
numbers (each `*Client` pointer is unique per join), the membership map
`clients map[*Client]bool` becomes a `Finset Nat`, the history slice
`Messages` becomes a `List Message`, and the control loop becomes a step
function over an explicit event type, returning both the successor state and
the list of (client, message) deliveries performed by the fan-out loop.
JSON serialization of the user-count payload is modelled by an injective
constructor of `MessageData` (the Go `json.Marshal` of the `RoomCount`
struct never fails and is injective on that struct).
-/

namespace chat_room

/-- Go constant `maxHistoryCount = 100`. -/
def maxHistoryCount : Nat := 100

/-- Payload of the synthesized user-count message (the local `RoomCount`
struct in `broadRoomUserCountMessage`). -/
structure RoomCount where
  UserCount : Nat
  RoomName : String
deriving DecidableEq, Repr

/-- The `Data []byte` field of a wire message: either absent, opaque client
bytes, or the JSON-marshalled `RoomCount` payload (serialization modelled as
an injective constructor). -/
inductive MessageData where
  | empty : MessageData
  | raw (s : String) : MessageData
  | userCount (rc : RoomCount) : MessageData
deriving DecidableEq, Repr

/-- Wire message (`chat_type.Message`): `{Type, RoomName, Data, ChatRoomList}`.
The Go field `Type` is a reserved word in Lean, rendered `type'`. -/
structure Message where
  type' : String
  RoomName : String := ""
  Data : MessageData := .empty
  ChatRoomList : List String := []
deriving DecidableEq, Repr

/-- The persisted-type check of the `switch message.Type` in `serve`:
only `"text"`, `"image"`, `"file"` reach the history/persistence branch. -/
def isPersistable (t : String) : Bool :=
  t == "text" || t == "image" || t == "file"

/-- State of one `Room`: the registered client set, the embedded
`ChatRoom` history (`Messages`) and room name, the store's copy of the room
state written by `chat_db.WriteChatInfoToLocalFile` (`persisted`), and the
loop/lifecycle flags (`stopped` models `ctx.Done` having fired and the loop
having returned; `channelsClosed` models the three `close` calls). -/
structure RoomState where
  clients : Finset Nat
  Messages : List Message
  RoomName : String
  persisted : List Message
  stopped : Bool
  channelsClosed : Bool
deriving DecidableEq

/-- One request arriving at the control loop's `select`. -/
inductive Event where
  | register (c : Nat) : Event
  | unregister (c : Nat) : Event
  | broadcast (m : Message) : Event
  | stop : Event
deriving DecidableEq, Repr

/-- One iteration of the `select` in `serve`, returning the successor state
and the deliveries made by the fan-out `for client := range h.clients`.
`register` inserts into the map; `unregister` deletes only when present;
`broadcast` appends to history and persists when the type is persistable
(the persist error is discarded, matching `_ =`), then delivers to every
registered client (Go map iteration order is unspecified; we enumerate the
set in ascending order, and theorems speak through membership); `stop`
closes the channels and returns. -/
def serveStep (s : RoomState) (e : Event) : RoomState × List (Nat × Message) :=
  match e with
  | .stop => ({ s with stopped := true, channelsClosed := true }, [])
  | .register c => ({ s with clients := insert c s.clients }, [])
  | .unregister c =>
      if c ∈ s.clients then ({ s with clients := s.clients.erase c }, [])
      else (s, [])
  | .broadcast m =>
      let s' :=
        if isPersistable m.type' then
          { s with Messages := s.Messages ++ [m],
                   persisted := s.Messages ++ [m] }
        else s
      (s', (s.clients.sort (· ≤ ·)).map (fun c => (c, m)))

/-- The control loop `serve`, run over a trace of arriving events.  Once the
stop signal has been taken the loop has returned, so no later event is
serviced (their state transitions and deliveries do not happen). -/
def serve : RoomState → List Event → RoomState × List (Nat × Message)
  | s, [] => (s, [])
  | s, e :: rest =>
      if s.stopped then (s, [])
      else
        let p := serveStep s e
        let q := serve p.1 rest
        (q.1, p.2 ++ q.2)

/-- `sendHistory`: the replay sent to one client — the most recent
`maxHistoryCount` history messages when the history is longer than that,
otherwise the whole history, followed by the `{Type: "over", RoomName}`
terminal marker.  It reads the history and does not modify the room. -/
def sendHistory (s : RoomState) : List Message :=
  let messages :=
    if s.Messages.length > maxHistoryCount then
      s.Messages.drop (s.Messages.length - maxHistoryCount)
    else
      s.Messages
  messages ++ [{ type' := "over", RoomName := s.RoomName }]

/-- `sendHistory` as a state transformer: the replay output paired with the
room state after the call (the Go function performs only sends; the room
state it leaves behind is the one it was given). -/
def sendHistorySt (s : RoomState) : List Message × RoomState :=
  (sendHistory s, s)

/-- `broadRoomUserCountMessage`: reads `len(h.clients)`, marshals the
`RoomCount` payload, and returns the `userCount` message it hands to
`BroadCast` — or `none` when `userCount <= 0`, where the Go code returns
without broadcasting. -/
def broadRoomUserCountMessage (s : RoomState) : Option Message :=
  let userCount := s.clients.card
  let roomCount : RoomCount := { UserCount := userCount, RoomName := s.RoomName }
  let jsonData := MessageData.userCount roomCount
  if userCount ≤ 0 then none
  else some { type' := "userCount", Data := jsonData }

/-- `UserCount` (the spec's `MemberCount()`): `len(h.clients)`. -/
def UserCount (s : RoomState) : Nat :=
  s.clients.card

/-- The join path as linearized by the loop: `UserJoin` sends the client on
the register channel (serviced by the loop), then calls
`broadRoomUserCountMessage`, whose message — when emitted — goes through the
broadcast channel and is serviced by the loop. -/
def UserJoin (s : RoomState) (c : Nat) : RoomState × List (Nat × Message) :=
  let p := serveStep s (.register c)
  match broadRoomUserCountMessage p.1 with
  | none => p
  | some m =>
      let q := serveStep p.1 (.broadcast m)
      (q.1, p.2 ++ q.2)

/-- The leave path as linearized by the loop: the `onClientLeave` callback
sends the client on the unregister channel, then calls
`broadRoomUserCountMessage`, whose message — when emitted — is serviced by
the loop's broadcast case. -/
def onClientLeave (s : RoomState) (c : Nat) : RoomState × List (Nat × Message) :=
  let p := serveStep s (.unregister c)
  match broadRoomUserCountMessage p.1 with
  | none => p
  | some m =>
      let q := serveStep p.1 (.broadcast m)
      (q.1, p.2 ++ q.2)

/-- State for the exported `Serve`'s `sync.Once` guard: whether `init.Do`
has already run, and how many `go h.serve()` loops were ever started. -/
structure ServeState where
  served : Bool
  loopsStarted : Nat
deriving DecidableEq, Repr

/-- Exported `Serve()`: `h.init.Do(func() { go h.serve() })` — starts the
control loop only the first time it is called. -/
def Serve (s : ServeState) : ServeState :=
  if s.served then s
  else { served := true, loopsStarted := s.loopsStarted + 1 }

/-- The counting of C3, computed alongside the simulated membership set:
given the current client set, `admittedCounts` returns (number of join
events that actually enlarge the set, number of leave events whose client
was present).  Counting stops at a stop event, where the loop exits. -/
def admittedCounts : Finset Nat → List Event → Nat × Nat
  | _, [] => (0, 0)
  | cl, e :: rest =>
      match e with
      | .register c =>
          let p := admittedCounts (insert c cl) rest
          if c ∈ cl then p else (p.1 + 1, p.2)
      | .unregister c =>
          let p := admittedCounts (cl.erase c) rest
          if c ∈ cl then (p.1, p.2 + 1) else p
      | .broadcast _ => admittedCounts cl rest
      | .stop => (0, 0)

/-- The terminal "history-complete" marker `{Type: "over", RoomName}`. -/
def historyOverMessage (rn : String) : Message :=
  { type' := "over", RoomName := rn }

/-- The synthesized user-count message with its marshalled payload. -/
def userCountMessage (n : Nat) (rn : String) : Message :=
  { type' := "userCount", Data := .userCount { UserCount := n, RoomName := rn } }

/-- A freshly created, running room named "lobby" (as built by `newRoom`). -/
def lobbyRoom : RoomState :=
  { clients := ∅, Messages := [], RoomName := "lobby", persisted := [],
    stopped := false, channelsClosed := false }

/-- A sample persistable text message. -/
def textHi : Message :=
  { type' := "text", RoomName := "lobby", Data := .raw "hi" }

/-- A sample non-persistable message (an ephemeral signaling type). -/
def ephemeralPing : Message :=
  { type' := "ping", RoomName := "lobby", Data := .raw "ping" }

/-! Helper lemmas about the control loop. -/

theorem serve_nil (s : RoomState) : serve s [] = (s, []) := rfl

theorem serve_cons (s : RoomState) (e : Event) (rest : List Event) :
    serve s (e :: rest) =
      if s.stopped then (s, [])
      else ((serve (serveStep s e).1 rest).1,
            (serveStep s e).2 ++ (serve (serveStep s e).1 rest).2) := rfl

/-- Once the loop has returned, no event is serviced. -/
theorem serve_of_stopped (s : RoomState) (evs : List Event)
    (h : s.stopped = true) : serve s evs = (s, []) := by
  cases evs with
  | nil => rfl
  | cons e rest => simp [serve_cons, h]

/-- The loop over a concatenated trace is the composition of the loops,
with the deliveries concatenated. -/
theorem serve_append (s : RoomState) (l1 l2 : List Event) :
    serve s (l1 ++ l2) =
      ((serve (serve s l1).1 l2).1, (serve s l1).2 ++ (serve (serve s l1).1 l2).2) := by
  induction l1 generalizing s with
  | nil => simp [serve_nil]
  | cons e rest ih =>
      by_cases h : s.stopped
      · simp [serve_cons, h, serve_of_stopped _ _ h]
      · simp [serve_cons, h, ih]

/-- Non-stop events leave the `stopped` flag alone. -/
theorem serveStep_stopped (s : RoomState) (e : Event) (h : e ≠ Event.stop) :
    (serveStep s e).1.stopped = s.stopped := by
  cases e with
  | stop => exact absurd rfl h
  | register c => rfl
  | unregister c =>
      by_cases hc : c ∈ s.clients <;> simp [serveStep, hc]
  | broadcast m =>
      by_cases hm : isPersistable m.type' <;> simp [serveStep, hm]

/-- A trace without a stop signal never stops the loop. -/
theorem serve_stopped_of_no_stop (s : RoomState) (evs : List Event)
    (hs : s.stopped = false) (h : Event.stop ∉ evs) :
    (serve s evs).1.stopped = false := by
  induction evs generalizing s with
  | nil => simpa [serve_nil]
  | cons e rest ih =>
      have he : e ≠ Event.stop := fun hh => h (hh ▸ List.mem_cons_self e rest)
      have hrest : Event.stop ∉ rest := fun hh => h (List.mem_cons_of_mem e hh)
      have hstep : (serveStep s e).1.stopped = false := by
        rw [serveStep_stopped s e he]; exact hs
      simp [serve_cons, hs, ih _ hstep hrest]

/-- A broadcast step never changes the client set. -/
theorem serveStep_broadcast_clients (s : RoomState) (m : Message) :
    (serveStep s (.broadcast m)).1.clients = s.clients := by
  by_cases hm : isPersistable m.type' <;> simp [serveStep, hm]

/-- The loop over a trace of persistable broadcasts appends them all to the
history, in submission order, and leaves the store holding that history. -/
theorem serve_persistable_broadcasts (ms : List Message) :
    ∀ s : RoomState, s.stopped = false →
    (∀ m ∈ ms, isPersistable m.type' = true) →
    (serve s (ms.map Event.broadcast)).1.Messages = s.Messages ++ ms
    ∧ (ms ≠ [] → (serve s (ms.map Event.broadcast)).1.persisted = s.Messages ++ ms) := by
  induction ms with
  | nil =>
      intro s hs _
      simp [serve_nil]
  | cons m rest ih =>
      intro s hs hall
      have hm : isPersistable m.type' = true := hall m (List.mem_cons_self _ _)
      have hrest : ∀ m' ∈ rest, isPersistable m'.type' = true :=
        fun m' h => hall m' (List.mem_cons_of_mem _ h)
      have h1 : (serveStep s (.broadcast m)).1
          = { s with Messages := s.Messages ++ [m], persisted := s.Messages ++ [m],
                     stopped := false } := by
        rw [← hs]
        simp [serveStep, hm]
      have hih := ih { s with Messages := s.Messages ++ [m],
                              persisted := s.Messages ++ [m],
                              stopped := false } rfl hrest
      rw [List.map_cons, serve_cons]
      simp only [hs, Bool.false_eq_true, if_false]
      rw [h1]
      constructor
      · rw [hih.1]
        simp
      · intro _
        by_cases hr : rest = []
        · subst hr
          simp [serve_nil]
        · rw [hih.2 hr]
          simp

/-- The running count bookkeeping of `admittedCounts` tracks the client-set
cardinality through the loop. -/
theorem serve_memberCount_eq (evs : List Event) :
    ∀ s : RoomState, s.stopped = false →
    (serve s evs).1.clients.card + (admittedCounts s.clients evs).2
      = s.clients.card + (admittedCounts s.clients evs).1 := by
  induction evs with
  | nil =>
      intro s hs
      simp [serve_nil, admittedCounts]
  | cons e rest ih =>
      intro s hs
      rw [serve_cons]
      simp only [hs, Bool.false_eq_true, if_false]
      cases e with
      | stop =>
          have h1 : (serveStep s Event.stop).1.stopped = true := rfl
          rw [serve_of_stopped _ _ h1]
          simp [admittedCounts, serveStep]
      | register c =>
          by_cases hc : c ∈ s.clients
          · have hins : insert c s.clients = s.clients :=
              Finset.insert_eq_self.mpr hc
            have hs1 : (serveStep s (.register c)).1 = s := by
              simp [serveStep, hins]
            rw [hs1]
            have h2 := ih s hs
            simp only [admittedCounts, hc, if_true, hins]
            simpa using h2
          · have hs1 : (serveStep s (.register c)).1
                = { s with clients := insert c s.clients } := rfl
            rw [hs1]
            have h2 := ih { s with clients := insert c s.clients } hs
            have hcard : (insert c s.clients).card = s.clients.card + 1 :=
              Finset.card_insert_of_not_mem hc
            simp only [admittedCounts, hc, if_false]
            simp only [hcard] at h2
            omega
      | unregister c =>
          by_cases hc : c ∈ s.clients
          · have hs1 : (serveStep s (.unregister c)).1
                = { s with clients := s.clients.erase c } := by
              simp [serveStep, hc]
            rw [hs1]
            have h2 := ih { s with clients := s.clients.erase c } hs
            have hcard : (s.clients.erase c).card + 1 = s.clients.card :=
              Finset.card_erase_add_one hc
            simp only [admittedCounts, hc, if_true]
            simp only [] at h2
            omega
          · have hers : s.clients.erase c = s.clients :=
              Finset.erase_eq_of_not_mem hc
            have hs1 : (serveStep s (.unregister c)).1 = s := by
              simp [serveStep, hc]
            rw [hs1]
            have h2 := ih s hs
            simp only [admittedCounts, hc, if_false, hers]
            simpa using h2
      | broadcast m =>
          have hcl : (serveStep s (.broadcast m)).1.clients = s.clients :=
            serveStep_broadcast_clients s m
          have hst : (serveStep s (.broadcast m)).1.stopped = false := by
            rw [serveStep_stopped s _ (by simp)]
            exact hs
          have h2 := ih (serveStep s (.broadcast m)).1 hst
          rw [hcl] at h2
          simp only [admittedCounts]
          simpa using h2

/-! Theorems settling the specification's claims. -/

/-- C2: for every room state, `sendHistory` replays exactly the most recent
`min (length, 100)` history messages — a suffix of the history, hence
oldest-first and nothing beyond the last 100 — followed by exactly one
terminal "history-complete" (`"over"`) marker carrying the room's name. -/
theorem sendHistory_replays_recent_min_100 (s : RoomState) :
    ∃ replay : List Message,
      sendHistory s = replay ++ [historyOverMessage s.RoomName]
      ∧ replay.length = min s.Messages.length maxHistoryCount
      ∧ replay <:+ s.Messages := by
  by_cases h : s.Messages.length > maxHistoryCount
  · refine ⟨s.Messages.drop (s.Messages.length - maxHistoryCount), ?_, ?_, ?_⟩
    · simp [sendHistory, historyOverMessage, h]
    · simp [List.length_drop]
      omega
    · exact List.drop_suffix _ _
  · refine ⟨s.Messages, ?_, ?_, List.suffix_refl _⟩
    · simp [sendHistory, historyOverMessage, h]
    · push_neg at h
      omega

/-- C8: history replay is idempotent — `sendHistory` leaves the room state
(including the stored history) unchanged, so a second call with no
intervening broadcast returns the identical sequence, and each replay is
terminated by the history-complete marker. -/
theorem sendHistory_idempotent (s : RoomState) :
    (sendHistorySt s).2 = s
    ∧ (sendHistorySt ((sendHistorySt s).2)).1 = (sendHistorySt s).1
    ∧ ((sendHistorySt s).2).Messages = s.Messages
    ∧ ((sendHistorySt s).1).getLast? = some (historyOverMessage s.RoomName)
    ∧ ((sendHistorySt ((sendHistorySt s).2)).1).getLast?
        = some (historyOverMessage s.RoomName) := by
  refine ⟨rfl, rfl, rfl, ?_, ?_⟩ <;>
    simp [sendHistorySt, sendHistory, historyOverMessage]

/-- C10: `Serve()` is idempotent — the `sync.Once` guard means that however
many times it is called on a room, the control loop goroutine is started at
most once. -/
theorem Serve_starts_loop_at_most_once (s : ServeState) (n : Nat) :
    Serve (Serve s) = Serve s
    ∧ (Serve^[n] { served := false, loopsStarted := 0 }).loopsStarted ≤ 1 := by
  constructor
  · by_cases h : s.served <;> simp [Serve, h]
  · cases n with
    | zero => simp
    | succ k =>
        rw [Function.iterate_succ_apply]
        have h1 : Serve { served := false, loopsStarted := 0 }
            = { served := true, loopsStarted := 1 } := rfl
        have h2 : Serve { served := true, loopsStarted := 1 }
            = { served := true, loopsStarted := 1 } := rfl
        rw [h1, Function.iterate_fixed h2]

/-- C4: a leave that empties the room emits no user-count message — the
deliveries of the whole leave path are empty and `broadRoomUserCountMessage`
returns nothing; in general a user-count broadcast is produced iff the
recipient count is strictly positive. -/
theorem leave_emptying_room_emits_no_count (s : RoomState) (c : Nat)
    (hempty : s.clients.erase c = ∅) :
    (onClientLeave s c).2 = []
    ∧ broadRoomUserCountMessage (serveStep s (.unregister c)).1 = none
    ∧ ((broadRoomUserCountMessage s).isSome = true ↔ 0 < UserCount s) := by
  have hcl : (serveStep s (.unregister c)).1.clients = ∅ := by
    by_cases hc : c ∈ s.clients
    · simp [serveStep, hc, hempty]
    · have h0 : s.clients = ∅ := by
        rw [← Finset.erase_eq_of_not_mem hc]; exact hempty
      simp [serveStep, hc, h0]
  have hmsg : broadRoomUserCountMessage (serveStep s (.unregister c)).1 = none := by
    simp [broadRoomUserCountMessage, hcl]
  refine ⟨?_, hmsg, ?_⟩
  · simp only [onClientLeave, hmsg]
    by_cases hc : c ∈ s.clients <;> simp [serveStep, hc]
  · by_cases h0 : s.clients.card = 0 <;>
      simp [broadRoomUserCountMessage, UserCount, h0, Nat.pos_iff_ne_zero]

theorem leave_emptying_room_emits_no_count_witness :
    ({ lobbyRoom with clients := {5} } : RoomState).clients.erase 5 = ∅
    ∧ ((onClientLeave { lobbyRoom with clients := {5} } 5).2 = []
      ∧ broadRoomUserCountMessage
          (serveStep { lobbyRoom with clients := {5} } (.unregister 5)).1 = none
      ∧ ((broadRoomUserCountMessage { lobbyRoom with clients := {5} }).isSome = true
          ↔ 0 < UserCount { lobbyRoom with clients := {5} })) :=
  ⟨by decide, leave_emptying_room_emits_no_count _ 5 (by decide)⟩

/-- C6: a broadcast processed while zero sessions are registered is
delivered to nobody, yet — when its type is persistable — it is still
appended to the history and the persisted state. -/
theorem broadcast_empty_room_no_delivery (s : RoomState) (m : Message)
    (h0 : s.clients = ∅) :
    (serveStep s (.broadcast m)).2 = []
    ∧ (isPersistable m.type' = true →
        (serveStep s (.broadcast m)).1.Messages = s.Messages ++ [m]
        ∧ (serveStep s (.broadcast m)).1.persisted = s.Messages ++ [m]) := by
  constructor
  · simp [serveStep, h0]
  · intro hm
    simp [serveStep, hm]

theorem broadcast_empty_room_no_delivery_witness :
    (lobbyRoom.clients = ∅)
    ∧ ((serveStep lobbyRoom (.broadcast textHi)).2 = []
      ∧ (isPersistable textHi.type' = true →
          (serveStep lobbyRoom (.broadcast textHi)).1.Messages
              = lobbyRoom.Messages ++ [textHi]
          ∧ (serveStep lobbyRoom (.broadcast textHi)).1.persisted
              = lobbyRoom.Messages ++ [textHi])) :=
  ⟨rfl, broadcast_empty_room_no_delivery lobbyRoom textHi rfl⟩

/-- C7: a broadcast whose type is not in {text, image, file} leaves the room
state — history and persisted copy included — entirely unchanged, while the
message is still fanned out to exactly the currently registered sessions. -/
theorem broadcast_nonpersistable_frame (s : RoomState) (m : Message) (c : Nat)
    (h : isPersistable m.type' = false) :
    (serveStep s (.broadcast m)).1 = s
    ∧ ((c, m) ∈ (serveStep s (.broadcast m)).2 ↔ c ∈ s.clients) := by
  constructor
  · simp [serveStep, h]
  · simp [serveStep, h, List.mem_map, Finset.mem_sort]

/-- C1: a persistable broadcast is appended to the history and the room's
full state is written to the store; every broadcast is delivered to exactly
the currently registered sessions; and a drained trace of N persistable
broadcasts leaves the stored history equal to exactly those N messages in
submission order. -/
theorem broadcast_appends_persists_delivers (s : RoomState) (m : Message)
    (ms : List Message) (c : Nat) (hs : s.stopped = false)
    (hall : ∀ m' ∈ ms, isPersistable m'.type' = true) :
    (isPersistable m.type' = true →
        (serveStep s (.broadcast m)).1.Messages = s.Messages ++ [m]
        ∧ (serveStep s (.broadcast m)).1.persisted = s.Messages ++ [m])
    ∧ ((c, m) ∈ (serveStep s (.broadcast m)).2 ↔ c ∈ s.clients)
    ∧ (serve s (ms.map Event.broadcast)).1.Messages = s.Messages ++ ms
    ∧ (ms ≠ [] → (serve s (ms.map Event.broadcast)).1.persisted = s.Messages ++ ms) := by
  refine ⟨?_, ?_, (serve_persistable_broadcasts ms s hs hall).1,
    (serve_persistable_broadcasts ms s hs hall).2⟩
  · intro hm
    simp [serveStep, hm]
  · simp [serveStep, List.mem_map, Finset.mem_sort]

theorem broadcast_appends_persists_delivers_witness :
    lobbyRoom.stopped = false
    ∧ (∀ m' ∈ [textHi, textHi], isPersistable m'.type' = true)
    ∧ ((isPersistable textHi.type' = true →
          (serveStep lobbyRoom (.broadcast textHi)).1.Messages
              = lobbyRoom.Messages ++ [textHi]
          ∧ (serveStep lobbyRoom (.broadcast textHi)).1.persisted
              = lobbyRoom.Messages ++ [textHi])
      ∧ ((5, textHi) ∈ (serveStep lobbyRoom (.broadcast textHi)).2
            ↔ 5 ∈ lobbyRoom.clients)
      ∧ (serve lobbyRoom ([textHi, textHi].map Event.broadcast)).1.Messages
            = lobbyRoom.Messages ++ [textHi, textHi]
      ∧ ([textHi, textHi] ≠ [] →
          (serve lobbyRoom ([textHi, textHi].map Event.broadcast)).1.persisted
              = lobbyRoom.Messages ++ [textHi, textHi])) :=
  ⟨rfl, by decide,
    broadcast_appends_persists_delivers lobbyRoom textHi [textHi, textHi] 5 rfl (by decide)⟩

/-- C3: after the control loop drains any event trace, `UserCount` equals
its initial value plus the joins that enlarged the membership set minus the
leaves whose session was actually present; an unregister for an absent
session is a complete no-op. -/
theorem memberCount_joins_minus_present_leaves (s : RoomState) (evs : List Event)
    (c : Nat) (hs : s.stopped = false) (hc : c ∉ s.clients) :
    UserCount (serve s evs).1 + (admittedCounts s.clients evs).2
      = UserCount s + (admittedCounts s.clients evs).1
    ∧ serveStep s (.unregister c) = (s, []) := by
  refine ⟨serve_memberCount_eq evs s hs, ?_⟩
  simp [serveStep, hc]

theorem memberCount_joins_minus_present_leaves_witness :
    lobbyRoom.stopped = false
    ∧ 7 ∉ lobbyRoom.clients
    ∧ (UserCount (serve lobbyRoom
          [.register 1, .register 2, .unregister 3, .unregister 1]).1
        + (admittedCounts lobbyRoom.clients
            [.register 1, .register 2, .unregister 3, .unregister 1]).2
      = UserCount lobbyRoom
        + (admittedCounts lobbyRoom.clients
            [.register 1, .register 2, .unregister 3, .unregister 1]).1
      ∧ serveStep lobbyRoom (.unregister 7) = (lobbyRoom, [])) :=
  ⟨rfl, by decide,
    memberCount_joins_minus_present_leaves lobbyRoom
      [.register 1, .register 2, .unregister 3, .unregister 1] 7 rfl (by decide)⟩

/-- C5: an admitted join produces a synthesized user-count broadcast whose
payload carries the post-join member count, and that broadcast is delivered
to exactly the post-join membership — the newly joined session included;
for a fresh session the carried count is the old count plus one. -/
theorem join_broadcasts_updated_count (s : RoomState) (c c' : Nat) :
    (UserJoin s c).1.clients = insert c s.clients
    ∧ broadRoomUserCountMessage (serveStep s (.register c)).1
        = some (userCountMessage (insert c s.clients).card s.RoomName)
    ∧ ((c', userCountMessage (insert c s.clients).card s.RoomName)
          ∈ (UserJoin s c).2
        ↔ c' ∈ insert c s.clients)
    ∧ (c ∉ s.clients → (insert c s.clients).card = s.clients.card + 1) := by
  have h0 : ¬ (insert c s.clients).card ≤ 0 := by
    have := Finset.card_pos.mpr (Finset.insert_nonempty c s.clients)
    omega
  have hmsg : broadRoomUserCountMessage (serveStep s (.register c)).1
      = some (userCountMessage (insert c s.clients).card s.RoomName) := by
    simp [broadRoomUserCountMessage, serveStep, userCountMessage, h0]
  have hnp : isPersistable (userCountMessage (insert c s.clients).card s.RoomName).type'
      = false := rfl
  refine ⟨?_, hmsg, ?_, fun hc => Finset.card_insert_of_not_mem hc⟩
  · simp only [UserJoin, hmsg]
    simp [serveStep, hnp]
  · simp only [UserJoin, hmsg]
    simp [serveStep, hnp, List.mem_map, Finset.mem_sort]

theorem join_broadcasts_updated_count_witness :
    2 ∉ ({ lobbyRoom with clients := {1} } : RoomState).clients
    ∧ ((UserJoin { lobbyRoom with clients := {1} } 2).1.clients
          = insert 2 ({ lobbyRoom with clients := {1} } : RoomState).clients
      ∧ broadRoomUserCountMessage
          (serveStep { lobbyRoom with clients := {1} } (.register 2)).1
        = some (userCountMessage
            (insert 2 ({ lobbyRoom with clients := {1} } : RoomState).clients).card
            ({ lobbyRoom with clients := {1} } : RoomState).RoomName)
      ∧ ((2, userCountMessage
              (insert 2 ({ lobbyRoom with clients := {1} } : RoomState).clients).card
              ({ lobbyRoom with clients := {1} } : RoomState).RoomName)
            ∈ (UserJoin { lobbyRoom with clients := {1} } 2).2
          ↔ 2 ∈ insert 2 ({ lobbyRoom with clients := {1} } : RoomState).clients)
      ∧ (2 ∉ ({ lobbyRoom with clients := {1} } : RoomState).clients →
          (insert 2 ({ lobbyRoom with clients := {1} } : RoomState).clients).card
            = ({ lobbyRoom with clients := {1} } : RoomState).clients.card + 1)) :=
  ⟨by decide, join_broadcasts_updated_count { lobbyRoom with clients := {1} } 2 2⟩

/-- C9: a stop signal makes the loop close its channels and return — the
final state is stopped with channels closed, events arriving after the stop
are never serviced (the run's outcome equals the run cut at the stop), and
without a stop signal the loop never exits. -/
theorem stop_closes_channels_and_exits (s : RoomState) (pre post : List Event)
    (hs : s.stopped = false) (hpre : Event.stop ∉ pre) :
    (serve s (pre ++ Event.stop :: post)).1.stopped = true
    ∧ (serve s (pre ++ Event.stop :: post)).1.channelsClosed = true
    ∧ serve s (pre ++ Event.stop :: post) = serve s (pre ++ [Event.stop])
    ∧ (serve s pre).1.stopped = false := by
  have hmid : (serve s pre).1.stopped = false := serve_stopped_of_no_stop s pre hs hpre
  have hstop1 : (serveStep (serve s pre).1 Event.stop).1.stopped = true := rfl
  have hone : serve (serve s pre).1 (Event.stop :: post)
      = ((serveStep (serve s pre).1 Event.stop).1, []) := by
    rw [serve_cons]
    simp [hmid, serve_of_stopped _ post hstop1]
    rfl
  have hone' : serve (serve s pre).1 [Event.stop]
      = ((serveStep (serve s pre).1 Event.stop).1, []) := by
    rw [serve_cons]
    simp [hmid, serve_nil]
    rfl
  rw [serve_append s pre (Event.stop :: post), serve_append s pre [Event.stop],
    hone, hone']
  exact ⟨rfl, rfl, rfl, hmid⟩

theorem stop_closes_channels_and_exits_witness :
    lobbyRoom.stopped = false
    ∧ Event.stop ∉ [Event.register 1]
    ∧ ((serve lobbyRoom ([Event.register 1] ++ Event.stop :: [Event.register 2])).1.stopped
          = true
      ∧ (serve lobbyRoom
            ([Event.register 1] ++ Event.stop :: [Event.register 2])).1.channelsClosed
          = true
      ∧ serve lobbyRoom ([Event.register 1] ++ Event.stop :: [Event.register 2])
          = serve lobbyRoom ([Event.register 1] ++ [Event.stop])
      ∧ (serve lobbyRoom [Event.register 1]).1.stopped = false) :=
  ⟨rfl, by decide,
    stop_closes_channels_and_exits lobbyRoom [Event.register 1] [Event.register 2]
      rfl (by decide)⟩

theorem broadcast_nonpersistable_frame_witness :
    isPersistable ephemeralPing.type' = false
    ∧ ((serveStep { lobbyRoom with clients := {5} } (.broadcast ephemeralPing)).1
          = { lobbyRoom with clients := {5} }
      ∧ ((5, ephemeralPing)
            ∈ (serveStep { lobbyRoom with clients := {5} } (.broadcast ephemeralPing)).2
          ↔ 5 ∈ ({ lobbyRoom with clients := {5} } : RoomState).clients)) :=
  ⟨rfl, broadcast_nonpersistable_frame _ ephemeralPing 5 rfl⟩

end chat_room
